import Mathlib

/-!
Shallow embedding of the ModeUp trend-detection engine
(`src/ml_model.py`, `src/database.py`, `src/email_service.py`, `src/config.py`)
and proofs of the spec's testable properties about it.

Modelling conventions, used throughout:
* Python `float` arithmetic inside the trend pipeline is modelled by exact
  rationals (`ℚ`); none of the verified properties depends on rounding.
* Wall-clock timestamps are modelled as integers (seconds); `datetime.now()` /
  `datetime.utcnow()` become an explicit `now : ℤ` parameter, and a duration of
  `h` hours becomes `h * 3600` seconds.
* A `timestamp` database column that the code only ever feeds to
  `datetime.fromisoformat` inside a `try/except` is modelled as `Option ℤ`:
  `some t` is a string that parses to time `t`, `none` a malformed string.
* `np.log1p` is IEEE-754; the embedding abstracts it as a parameter
  `log1p : ℕ → ℚ` (every theorem holds for an arbitrary such function, in
  particular for the rational value the float computation produces).
-/

namespace ModeUp

/-! ### Configuration constants (`src/config.py`) -/

/-- Constant `config.TREND_SCORE_THRESHOLD = 45`. -/
def TREND_SCORE_THRESHOLD : ℚ := 45

/-- Constant `config.MIN_PLATFORMS_FOR_PREDICTION = 2`. -/
def MIN_PLATFORMS_FOR_PREDICTION : ℤ := 2

/-- Constant `config.MIN_MENTIONS_FOR_TOPIC = 2`. -/
def MIN_MENTIONS_FOR_TOPIC : ℤ := 2

/-- Constant `config.SINGLE_PLATFORM_MIN_SCORE = 75.0`. -/
def SINGLE_PLATFORM_MIN_SCORE : ℚ := 75

/-- Constant `config.TOP_N_PREDICTIONS_TO_SAVE = 10`. -/
def TOP_N_PREDICTIONS_TO_SAVE : ℕ := 10

/-- Constant `config.ALERT_MIN_TREND_SCORE = 65`. -/
def ALERT_MIN_TREND_SCORE : ℚ := 65

/-- Constant `config.ALERT_MIN_CONFIDENCE = 60`. -/
def ALERT_MIN_CONFIDENCE : ℚ := 60

/-- Constant `config.ALERT_TOPIC_COOLDOWN_HOURS = 24`. -/
def ALERT_TOPIC_COOLDOWN_HOURS : ℤ := 24

/-- Constant `config.ALERT_CATEGORY_COOLDOWN_HOURS = 6`. -/
def ALERT_CATEGORY_COOLDOWN_HOURS : ℤ := 6

/-- Constant `config.ALERT_MAX_ITEMS_PER_EMAIL = 5`. -/
def ALERT_MAX_ITEMS_PER_EMAIL : ℕ := 5

/-- Table `config.ENGAGEMENT_BASELINES` as a total lookup;
`dict.get(category, 150.0)` is the `| _ => 150` branch. -/
def ENGAGEMENT_BASELINES (category : String) : ℚ :=
  match category with
  | "stocks_finance" => 250
  | "politics_news" => 180
  | "fashion_trends" => 120
  | "extreme_weather_environment" => 160
  | "health_wellness" => 130
  | "tech_ai" => 220
  | "popular_culture" => 200
  | _ => 150

/-! ### Topic canonicalizer (`normalize_topic`, src/ml_model.py lines 32-43)

The Python function is a pipeline of the string operations below; we embed it
on `List Char`.

* `s.lower()` → `lowerChar` mapped over the characters (ASCII model of
  `str.lower`: shift `'A'..'Z'` down by 32, leave everything else).
* `re.sub(r"[^a-z0-9\s]", " ", s)` → every character that is neither a
  lowercase ASCII letter, a digit, nor Python-`\s` whitespace becomes `' '`.
* `re.sub(r"\b(today|live|2024|2025|2026|news|stock|price|official|trailer)\b", "", s)`:
  after the previous step every character of the string is a word character
  (`[a-z0-9]`; no `_` and no uppercase can survive) or whitespace, and each
  junk token consists solely of word characters, so a `\b`-delimited
  occurrence of a token is exactly a maximal word-character run equal to the
  token.  The substitution deletes those runs, leaving the surrounding
  whitespace in place (so distinct words never merge).
* `re.sub(r"\s+", " ", s).strip()` → the surviving word runs joined by single
  spaces, with no leading/trailing space.

The last two regexes are therefore modelled together as: split the cleaned
character list into its maximal word-character runs, drop the runs equal to a
junk token, and join the remaining runs with `' '`. -/

/-- ASCII model of Python `str.lower` (codes 65-90 are `'A'..'Z'`). -/
def lowerChar (c : Char) : Char :=
  if 65 ≤ c.toNat ∧ c.toNat ≤ 90 then Char.ofNat (c.toNat + 32) else c

/-- A regex word character after the punctuation strip: `[a-z0-9]`
(codes 97-122 and 48-57). -/
def isWordChar (c : Char) : Bool :=
  (97 ≤ c.toNat && c.toNat ≤ 122) || (48 ≤ c.toNat && c.toNat ≤ 57)

/-- Python regex `\s` on ASCII: space, `\t`, `\n`, `\r`, `\x0b`, `\x0c`. -/
def isPySpace (c : Char) : Bool :=
  c = ' ' || c = '\t' || c = '\n' || c = '\r' || c = '\x0b' || c = '\x0c'

/-- Effect of `re.sub(r"[^a-z0-9\s]", " ", ·)` on one character. -/
def depunctChar (c : Char) : Char :=
  if isWordChar c || isPySpace c then c else ' '

/-- The junk tokens of the `\b(...)\b` substitution, as character lists. -/
def junkWords : List (List Char) :=
  [String.data "today", String.data "live", String.data "2024",
   String.data "2025", String.data "2026", String.data "news",
   String.data "stock", String.data "price", String.data "official",
   String.data "trailer"]

/-- Worker for `splitWords`: `acc` is the word-character run currently being
read, in reverse order. -/
def splitWordsAux (acc : List Char) : List Char → List (List Char)
  | [] => if acc = [] then [] else [acc.reverse]
  | c :: cs =>
    if isWordChar c then splitWordsAux (c :: acc) cs
    else if acc = [] then splitWordsAux [] cs
    else acc.reverse :: splitWordsAux [] cs

/-- Maximal runs of word characters of a character list (everything else is a
separator). -/
def splitWords (cs : List Char) : List (List Char) := splitWordsAux [] cs

/-- Join word runs with single spaces (the effect of `re.sub(r"\s+", " ", ·)`
followed by `.strip()` on a junk-stripped string). -/
def joinWords : List (List Char) → List Char
  | [] => []
  | [w] => w
  | w :: ws => w ++ ' ' :: joinWords ws

/-- Embedding of `normalize_topic` (src/ml_model.py lines 32-43).  `s or ""` only matters
for a Python `None` argument, which the callers never pass. -/
def normalize_topic (s : String) : String :=
  let cs := (s.data.map lowerChar).map depunctChar
  ⟨joinWords ((splitWords cs).filter (fun w => !junkWords.contains w))⟩

/-! ### Engagement parsing (`safe_parse_engagement`, src/ml_model.py lines 12-29) -/

/-- Result of a Python float computation: a finite value (modelled exactly as
a rational), an infinity, or NaN. -/
inductive PyFloat where
  | finite (q : ℚ)
  | inf
  | neginf
  | nan
deriving DecidableEq, Repr

/-- Finiteness of a Python float. -/
def PyFloat.isFinite : PyFloat → Bool
  | .finite _ => true
  | _ => false

/-- Negation of a Python float (used for a leading `-` sign). -/
def PyFloat.neg : PyFloat → PyFloat
  | .finite q => .finite (-q)
  | .inf => .neginf
  | .neginf => .inf
  | .nan => .nan

/-- Python `str.strip()`: drop whitespace from both ends. -/
def pyStrip (cs : List Char) : List Char :=
  ((cs.dropWhile isPySpace).reverse.dropWhile isPySpace).reverse

/-- Characters allowed inside a digit run of a Python float literal. -/
def isDigitU (c : Char) : Bool := c.isDigit || c = '_'

/-- State of the digit-run scanner: at the start of the run, directly after a
digit, or directly after an underscore. -/
inductive RunState where
  | start
  | afterDigit
  | afterUnderscore
deriving DecidableEq, Repr

/-- Worker for `digitsOfRun`: an underscore is legal only directly after a
digit, and the run may not end directly after an underscore. -/
def digitsOfRunAux (st : RunState) : List Char → Option (List ℕ)
  | [] => if st = .afterUnderscore then none else some []
  | c :: rest =>
    if c.isDigit then (digitsOfRunAux .afterDigit rest).map (fun ds => (c.toNat - 48) :: ds)
    else if c = '_' then
      if st = .afterDigit then digitsOfRunAux .afterUnderscore rest else none
    else none

/-- Validate the underscore placement of a digit run (Python allows `_` only
directly between two digits) and return the digit values. -/
def digitsOfRun (cs : List Char) : Option (List ℕ) := digitsOfRunAux .start cs

/-- Numeric value of a digit list, most significant first. -/
def natOfDigits (ds : List ℕ) : ℕ := ds.foldl (fun a d => 10 * a + d) 0

/-- Model of CPython `float(string)` after whitespace strip, sign removal and
lowercasing: `inf`/`infinity`/`nan`, or a decimal literal
`digits [. digits] [e [sign] digits]` with at least one mantissa digit.
The finite value is kept as an exact rational (no IEEE rounding). -/
def parsePyFloatCore (cs : List Char) : Option PyFloat :=
  if cs = String.data "inf" ∨ cs = String.data "infinity" then some .inf
  else if cs = String.data "nan" then some .nan
  else
    let intRun := cs.takeWhile isDigitU
    let rest := cs.dropWhile isDigitU
    match digitsOfRun intRun with
    | none => none
    | some intDs =>
      let fracRun := match rest with
        | '.' :: rest' => rest'.takeWhile isDigitU
        | _ => []
      let rest2 := match rest with
        | '.' :: rest' => rest'.dropWhile isDigitU
        | _ => rest
      match digitsOfRun fracRun with
      | none => none
      | some fracDs =>
        if intRun = [] ∧ fracRun = [] then none
        else
          let mantissa : ℚ := (natOfDigits (intDs ++ fracDs) : ℚ) / (10 : ℚ) ^ fracDs.length
          match rest2 with
          | [] => some (.finite mantissa)
          | 'e' :: rest3 =>
            let esign : ℤ := match rest3 with
              | '+' :: _ => 1
              | '-' :: _ => -1
              | _ => 1
            let rest4 := match rest3 with
              | '+' :: r => r
              | '-' :: r => r
              | _ => rest3
            let expRun := rest4.takeWhile isDigitU
            let rest5 := rest4.dropWhile isDigitU
            match digitsOfRun expRun with
            | none => none
            | some expDs =>
              if expRun = [] ∨ rest5 ≠ [] then none
              else some (.finite (mantissa * (10 : ℚ) ^ (esign * (natOfDigits expDs : ℤ))))
          | _ => none

/-- Consume one optional leading sign: the flag records a leading `-`. -/
def signSplit (t : List Char) : Bool × List Char :=
  match t with
  | '+' :: rest => (false, rest)
  | '-' :: rest => (true, rest)
  | _ => (false, t)

/-- Model of CPython `float(s)` on a string: strip whitespace, optional single
sign, then the case-insensitive core.  `none` models `ValueError`. -/
def floatOfPyString (s : List Char) : Option PyFloat :=
  let p := signSplit (pyStrip s)
  match parsePyFloatCore (p.2.map lowerChar) with
  | some f => some (if p.1 then f.neg else f)
  | none => none

/-- A Python value in the `engagement_score` slot of a data point:
`pyNone` models `None`, `num` an `int` or `float`, `str` a string. -/
inductive EngValue where
  | pyNone
  | num (q : ℚ)
  | str (s : String)
deriving DecidableEq

/-- The string cleaning `safe_parse_engagement` applies before `float()`:
`s.replace(",", "").replace("+", "")`, then drop one trailing `%`. -/
def cleanedEngagement (s : List Char) : List Char :=
  let s := s.filter (fun c => c ≠ ',')
  let s := s.filter (fun c => c ≠ '+')
  if s.getLast? = some '%' then s.dropLast else s

/-- Embedding of `safe_parse_engagement` (src/ml_model.py lines 12-29). -/
def safe_parse_engagement : EngValue → PyFloat
  | .pyNone => .finite 0                            -- if value is None: return 0.0
  | .num q => .finite q                             -- float(value) on int/float
  | .str v =>
    let s := pyStrip v.data                         -- str(value).strip()
    if s.map lowerChar = String.data "breakout" then .finite 100
    else
      match floatOfPyString (cleanedEngagement s) with
      | some f => f                                 -- float(s)
      | none => .finite 0                           -- except ValueError: 0.0

/-! ### Feature extraction and scoring (`TrendPredictor`, src/ml_model.py)

A data point is one row of `get_data_points` (src/database.py lines 210-226):
`(platform, topic, content, engagement_score, timestamp, metadata)`.  The
`metadata` column is never read by the pipeline and is omitted.  The
`engagement_score` column is written by `save_data_point` with a Python float
(`data_collector.py` line 606, `engagement = float(...)`), and
`safe_parse_engagement` on an `int`/`float` is `float(value)`, i.e. the value
itself (see `safe_parse_num_id` below); the column is therefore modelled as
the rational directly.  The `timestamp` column is consumed only through
`datetime.fromisoformat` inside `try/except`, so it is modelled as the parse
result `Option ℤ`. -/

/-- One row returned by `get_data_points`. -/
structure DataPoint where
  platform : String
  topic : String
  content : String
  engagement : ℚ
  ts : Option ℤ
deriving DecidableEq, Repr

/-- The feature dictionary built by `TrendPredictor.extract_features`
(src/ml_model.py lines 123-136).  Integer-valued entries keep Python `int`
(`ℤ`), float-valued entries are `ℚ`. -/
structure SignalVector where
  platform_count : ℤ
  avg_engagement : ℚ
  max_engagement : ℚ
  total_mentions : ℤ
  velocity : ℚ
  twitter_weight : ℚ
  news_weight : ℚ
  google_trends_weight : ℚ
  google_search_weight : ℚ
  youtube_weight : ℚ
  corroboration : ℤ
  mention_strength : ℚ
deriving DecidableEq, Repr

/-- Maximum of a list of rationals (`np.max`); the `[]` arm is unreachable at
the call site, which is guarded by a nonemptiness test. -/
def qMax : List ℚ → ℚ
  | [] => 0
  | q :: qs => qs.foldl max q

/-- Embedding of `TrendPredictor.extract_features` (src/ml_model.py lines
69-136).  `log1p` abstracts `np.log1p` (applied to `total_mentions`), `now`
abstracts `datetime.now()`. -/
def extract_features (log1p : ℕ → ℚ) (topic : String) (data_points : List DataPoint)
    (category : String) (now : ℤ) : Option SignalVector :=
  let topic_data := data_points.filter
    (fun dp => normalize_topic dp.topic = normalize_topic topic)
  if topic_data = [] then none                       -- if not topic_data: return None
  else
    let platforms := topic_data.map (fun dp => dp.platform)
    let platform_count := platforms.dedup.length     -- len(set(platforms))
    let baseline := ENGAGEMENT_BASELINES category
    let engagement_scores := topic_data.map (fun dp => dp.engagement / max baseline 1)
    if engagement_scores = [] then none              -- if not engagement_scores (unreachable)
    else
      let avg_engagement := engagement_scores.sum / (engagement_scores.length : ℚ)
      let max_engagement := qMax engagement_scores
      let total_mentions := topic_data.length
      -- velocity loop: `ts > six_hours_ago` counted, malformed timestamps skipped
      let recent_mentions := topic_data.foldl (fun acc dp =>
        match dp.ts with
        | some t => if now - 6 * 3600 < t then acc + 1 else acc
        | none => acc) (0 : ℕ)
      let velocity : ℚ := (recent_mentions : ℚ) / (max total_mentions 1 : ℚ)
      some {
        platform_count := platform_count
        avg_engagement := avg_engagement
        max_engagement := max_engagement
        total_mentions := total_mentions
        velocity := velocity
        twitter_weight := (platforms.countP (fun p => p = "twitter") : ℚ) * 2
        news_weight := (platforms.countP (fun p => p = "news") : ℚ) * (5/2)
        google_trends_weight := (platforms.countP (fun p => p = "google_trends") : ℚ) * 3
        google_search_weight := (platforms.countP (fun p => p = "google_search") : ℚ) * (3/2)
        youtube_weight := (platforms.countP (fun p => p = "youtube") : ℚ) * (11/5)
        corroboration := platform_count
        mention_strength := log1p total_mentions }

/-- Embedding of `TrendPredictor.calculate_trend_score` (src/ml_model.py lines
141-173).  The `if not f: return 0.0` guard models a `None` argument; the
embedding's callers match on the `Option` instead. -/
def calculate_trend_score (f : SignalVector) : ℚ :=
  let score : ℚ := 0
  -- 1) corroboration / platform diversity, 0..30
  let score := score + min (8 + ((f.platform_count : ℚ) - 1) * 10) 30
  -- 2) engagement, 0..25
  let score := score + min (f.avg_engagement * 7) (25/2)
  let score := score + min (f.max_engagement * 3) (25/2)
  -- 3) velocity (0..20)
  let score := score + f.velocity * 20
  -- 4) mention strength (0..10)
  let score := score + min (f.mention_strength * 4) 10
  -- 5) platform authority weights (0..15)
  let platform_score :=
    min (f.news_weight / 20 * 6) 6 +
    min (f.google_trends_weight / 12 * 4) 4 +
    min (f.youtube_weight / 12 * 3) 3 +
    min (f.twitter_weight / 20 * 2) 2
  let score := score + platform_score
  -- Clamp
  min score 100

/-- Embedding of `TrendPredictor.calculate_confidence` (src/ml_model.py lines
178-209). -/
def calculate_confidence (f : SignalVector) : ℚ :=
  -- platform confidence (0..55)
  let plat := min (20 + ((f.platform_count : ℚ) - 1) * 20) 55
  -- mention confidence (0..25)
  let m := f.total_mentions
  let mention : ℚ :=
    if m ≤ 1 then 5
    else if m = 2 then 12
    else if m = 3 then 18
    else if m = 4 then 22
    else 25
  -- velocity confidence (0..20)
  let vel := min (f.velocity * 20) 20
  min (plat + mention + vel) 100

/-- Embedding of `TrendPredictor.passes_prediction_policy` (src/ml_model.py
lines 214-232) at the configured knobs. -/
def passes_prediction_policy (f : SignalVector) (score : ℚ) : Bool :=
  if f.total_mentions < MIN_MENTIONS_FOR_TOPIC then false
  else if MIN_PLATFORMS_FOR_PREDICTION ≤ f.platform_count then true
  else decide (f.platform_count = 1) && decide (SINGLE_PLATFORM_MIN_SCORE ≤ score)

/-- One prediction dict appended by `predict_trends` (src/ml_model.py lines
261-267).  The `features` key is carried in the source but consumed by no
downstream reader and is omitted. -/
structure Prediction where
  topic : String
  category : String
  trend_score : ℚ
  confidence : ℚ
deriving DecidableEq, Repr

/-- Worker for `firstOccurrences`: `seen` collects the elements already
emitted. -/
def firstOccurrencesAux (seen : List String) : List String → List String
  | [] => []
  | x :: xs =>
    if seen.contains x then firstOccurrencesAux seen xs
    else x :: firstOccurrencesAux (x :: seen) xs

/-- Model of `list(set(xs))`: the distinct elements.  CPython's set order is
arbitrary; the embedding fixes first-occurrence order. -/
def firstOccurrences (xs : List String) : List String := firstOccurrencesAux [] xs

/-- Candidate topics of one cycle: `list(set(dp[1] for dp in data_points if dp[1]))`
(src/ml_model.py line 243); the generator drops falsy (empty) raw topics. -/
def candidate_topics (data_points : List DataPoint) : List String :=
  firstOccurrences ((data_points.map (fun dp => dp.topic)).filter (fun t => t ≠ ""))

/-- The per-topic loop body of `predict_trends` (src/ml_model.py lines
246-271): extract features, score, apply the policy before the threshold,
and keep a prediction dict when the score meets `TREND_SCORE_THRESHOLD`. -/
def cycle_predictions (log1p : ℕ → ℚ) (data_points : List DataPoint)
    (category : String) (now : ℤ) : List Prediction :=
  (candidate_topics data_points).filterMap (fun topic =>
    match extract_features log1p topic data_points category now with
    | none => none                                   -- if not f: continue
    | some f =>
      let score := calculate_trend_score f
      if passes_prediction_policy f score then       -- apply policy BEFORE threshold
        if TREND_SCORE_THRESHOLD ≤ score then
          some { topic := topic, category := category, trend_score := score,
                 confidence := calculate_confidence f }
        else none
      else none)

/-- Stable insertion into a list sorted by `trend_score` descending: the new
element goes before ties, matching the stability of Python `list.sort`. -/
def insertScoreDesc (p : Prediction) : List Prediction → List Prediction
  | [] => [p]
  | q :: qs =>
    if q.trend_score ≤ p.trend_score then p :: q :: qs
    else q :: insertScoreDesc p qs

/-- Stable sort by `trend_score` descending, modelling
`predictions.sort(key=lambda x: x["trend_score"], reverse=True)`. -/
def sortScoreDesc : List Prediction → List Prediction
  | [] => []
  | p :: ps => insertScoreDesc p (sortScoreDesc ps)

/-- Embedding of `TrendPredictor.predict_trends` (src/ml_model.py lines
237-288): the sorted prediction list the method returns.  The early return
for `not data_points` yields `[]`, as does this definition. -/
def predict_trends (log1p : ℕ → ℚ) (data_points : List DataPoint)
    (category : String) (now : ℤ) : List Prediction :=
  sortScoreDesc (cycle_predictions log1p data_points category now)

/-- The predictions `predict_trends` submits to `save_prediction`:
`predictions[:top_n]` after the sort (src/ml_model.py lines 276-284). -/
def saved_predictions (log1p : ℕ → ℚ) (data_points : List DataPoint)
    (category : String) (now : ℤ) : List Prediction :=
  (predict_trends log1p data_points category now).take TOP_N_PREDICTIONS_TO_SAVE

/-! ### Prediction store (`save_prediction`, src/database.py lines 135-159)

The `predictions` table is modelled as a list of rows in insertion order;
`CURRENT_TIMESTAMP` becomes the explicit `now`.  The dedup query
`datetime(predicted_at) > datetime('now', '-1 hour')` is the strict
comparison `now - 3600 < predicted_at`.  `lastrowid` of an AUTOINCREMENT
table with no deletions is the row count after the insert. -/

/-- One row of the `predictions` table. -/
structure PredictionRow where
  id : ℕ
  topic : String
  category : String
  trend_score : ℚ
  confidence : ℚ
  predicted_at : ℤ
deriving DecidableEq, Repr

/-- Embedding of `save_prediction`: returns the new row id (or `none` on the
recent-duplicate no-op) together with the updated table. -/
def save_prediction (table : List PredictionRow) (now : ℤ) (topic category : String)
    (trend_score confidence : ℚ) : Option ℕ × List PredictionRow :=
  if table.any (fun r =>
      decide (r.topic = topic) && decide (r.category = category) &&
      decide (now - 3600 < r.predicted_at)) then
    (none, table)
  else
    let id := table.length + 1
    (some id, table ++ [{ id := id, topic := topic, category := category,
                          trend_score := trend_score, confidence := confidence,
                          predicted_at := now }])

/-! ### Alert ledger and per-user selection
(`src/database.py` lines 232-263, `src/email_service.py` lines 119-152)

The `alerts` table stores `alerted_at` as `datetime.utcnow().isoformat(timespec="seconds")`
and the cooldown queries compare it with a cutoff string of the same format
using SQL string `>=`; ISO-8601 strings of equal format compare
lexicographically exactly as their times compare, so `alerted_at` is modelled
as an integer and the comparison as `≥` on integers (inclusive). -/

/-- One row of the `alerts` table. -/
structure AlertRow where
  email : String
  category : String
  topic : String
  trend_score : ℚ
  confidence : ℚ
  alerted_at : ℤ
deriving DecidableEq, Repr

/-- Embedding of `was_user_alerted_for_topic` (src/database.py lines 232-246):
a row for `(email, topic)` with `alerted_at >= now - hours` exists. -/
def was_user_alerted_for_topic (alerts : List AlertRow) (email topic : String)
    (hours now : ℤ) : Bool :=
  alerts.any (fun r =>
    decide (r.email = email) && decide (r.topic = topic) &&
    decide (now - hours * 3600 ≤ r.alerted_at))

/-- Embedding of `was_user_alerted_for_category` (src/database.py lines
249-263): a row for `(email, category)` with `alerted_at >= now - hours`
exists (the boundary row at exactly the cutoff counts). -/
def was_user_alerted_for_category (alerts : List AlertRow) (email category : String)
    (hours now : ℤ) : Bool :=
  alerts.any (fun r =>
    decide (r.email = email) && decide (r.category = category) &&
    decide (now - hours * 3600 ≤ r.alerted_at))

/-- Embedding of `filter_predictions_for_user` (src/email_service.py lines
119-152).  `by_cat` is a Python dict built in first-seen order, skipping falsy
categories; iterating `by_cat.items()` is the `flatMap` over those keys. -/
def filter_predictions_for_user (alerts : List AlertRow) (email : String)
    (predictions : List Prediction) (now : ℤ) : List Prediction :=
  let strong := predictions.filter (fun p =>
    decide (ALERT_MIN_TREND_SCORE ≤ p.trend_score) &&
    decide (ALERT_MIN_CONFIDENCE ≤ p.confidence))
  if strong = [] then []
  else
    let cats := firstOccurrences ((strong.map (fun p => p.category)).filter (fun c => c ≠ ""))
    let filtered := (cats.map (fun cat =>
      if was_user_alerted_for_category alerts email cat ALERT_CATEGORY_COOLDOWN_HOURS now then
        []
      else
        (sortScoreDesc (strong.filter (fun p => p.category = cat))).filter (fun p =>
          decide (p.topic ≠ "") &&
          !(was_user_alerted_for_topic alerts email p.topic ALERT_TOPIC_COOLDOWN_HOURS now)))).flatten
    (sortScoreDesc filtered).take ALERT_MAX_ITEMS_PER_EMAIL

/-- Number of rows stored for one `(topic, category)` pair. -/
def pairCount (tbl : List PredictionRow) (topic category : String) : ℕ :=
  tbl.countP (fun r => decide (r.topic = topic) && decide (r.category = category))

/-! ### Concrete instances used in the claim theorems -/

/-- A signal vector with negative normalized engagement: the vector
`extract_features` builds (with `log1p` instantiated to the zero function)
from one mention on an unweighted platform carrying parsed engagement -1500
in a category with the default baseline 150. -/
def negEngagementVector : SignalVector :=
  { platform_count := 1, avg_engagement := -10, max_engagement := -10, total_mentions := 1,
    velocity := 0, twitter_weight := 0, news_weight := 0, google_trends_weight := 0,
    google_search_weight := 0, youtube_weight := 0, corroboration := 1, mention_strength := 0 }

/-- An alert record dated exactly at the 6-hour cooldown cutoff for `now = 0`. -/
def boundaryAlertRow : AlertRow :=
  { email := "u@example.com", category := "tech_ai", topic := "old",
    trend_score := 70, confidence := 80, alerted_at := -21600 }

/-- A fresh strong candidate in the cooled-down category. -/
def freshCandidate : Prediction :=
  { topic := "fresh", category := "tech_ai", trend_score := 90, confidence := 95 }

/-- A mention of topic "gold" on platform "alpha". -/
def demoDp1 : DataPoint :=
  { platform := "alpha", topic := "gold", content := "", engagement := 300, ts := some 0 }

/-- A mention of topic "gold" on platform "beta". -/
def demoDp2 : DataPoint :=
  { platform := "beta", topic := "gold", content := "", engagement := 300, ts := some 0 }

/-- The signal vector of `demoDp1`/`demoDp2` under the zero `log1p`. -/
def fGold : SignalVector :=
  { platform_count := 2, avg_engagement := 2, max_engagement := 2, total_mentions := 2,
    velocity := 1, twitter_weight := 0, news_weight := 0, google_trends_weight := 0,
    google_search_weight := 0, youtube_weight := 0, corroboration := 2, mention_strength := 0 }

/-- The prediction the demo cycle produces for topic "gold". -/
def demoSavedPred : Prediction :=
  { topic := "gold", category := "c", trend_score := 113/2, confidence := 72 }

/-- A matching mention with a parseable, recent timestamp. -/
def recentMention : DataPoint :=
  { platform := "alpha", topic := "ai", content := "", engagement := 10, ts := some (-100) }

/-- A matching mention whose `observed_at` does not parse. -/
def malformedMention : DataPoint :=
  { platform := "beta", topic := "ai", content := "", engagement := 10, ts := none }

/-- A mention whose raw topic "2024" canonicalizes to the empty string. -/
def dp2024 : DataPoint :=
  { platform := "alpha", topic := "2024", content := "", engagement := 300, ts := some 0 }

/-- A second empty-canonical mention ("news" is a junk token). -/
def dpNews : DataPoint :=
  { platform := "beta", topic := "news", content := "", engagement := 300, ts := some 0 }

/-- The prediction the cycle stores for the raw topic "2024". -/
def pred2024 : Prediction :=
  { topic := "2024", category := "c", trend_score := 113/2, confidence := 72 }

/-- A cleaned engagement string that spells one of CPython's special
non-finite float literals: optional sign, then `inf`/`infinity`/`nan`,
case-insensitively, modulo surrounding whitespace. -/
def isSpecialFloatString (s : List Char) : Bool :=
  let low := (signSplit (pyStrip s)).2.map lowerChar
  low = String.data "inf" || low = String.data "infinity" || low = String.data "nan"

/-! ## Claim theorems -/

/-! #### Idempotence of the canonicalizer -/

/-- Every run produced by `splitWordsAux` is nonempty and made of word
characters, provided the pending run is. -/
theorem splitWordsAux_sound (cs : List Char) :
    ∀ acc, (∀ c ∈ acc, isWordChar c) →
      ∀ w ∈ splitWordsAux acc cs, w ≠ [] ∧ ∀ c ∈ w, isWordChar c := by
  induction cs with
  | nil =>
    intro acc hacc w hw
    rw [splitWordsAux] at hw
    by_cases h : acc = []
    · simp [h] at hw
    · rw [if_neg h] at hw
      rcases List.mem_singleton.mp hw with rfl
      refine ⟨by simpa using h, fun c hc => hacc c (List.mem_reverse.mp hc)⟩
  | cons c cs ih =>
    intro acc hacc w hw
    rw [splitWordsAux] at hw
    by_cases hc : isWordChar c
    · rw [if_pos hc] at hw
      refine ih (c :: acc) (fun d hd => ?_) w hw
      rcases List.mem_cons.mp hd with rfl | hd
      · exact hc
      · exact hacc d hd
    · rw [if_neg hc] at hw
      by_cases h : acc = []
      · rw [if_pos h] at hw
        exact ih [] (by simp) w hw
      · rw [if_neg h] at hw
        rcases List.mem_cons.mp hw with rfl | hw
        · exact ⟨by simpa using h, fun d hd => hacc d (List.mem_reverse.mp hd)⟩
        · exact ih [] (by simp) w hw

/-- Every run produced by `splitWords` is nonempty and made of word characters. -/
theorem splitWords_sound (cs : List Char) :
    ∀ w ∈ splitWords cs, w ≠ [] ∧ ∀ c ∈ w, isWordChar c :=
  splitWordsAux_sound cs [] (by simp)

/-- A word-character block is absorbed into the pending run. -/
theorem splitWordsAux_word_append (w : List Char) (hw : ∀ c ∈ w, isWordChar c)
    (t : List Char) : ∀ acc, splitWordsAux acc (w ++ t) = splitWordsAux (w.reverse ++ acc) t := by
  induction w with
  | nil => intro acc; simp
  | cons a w' ih =>
    intro acc
    have ha : isWordChar a := hw a (List.mem_cons_self a w')
    show splitWordsAux acc (a :: (w' ++ t)) = _
    rw [splitWordsAux, if_pos ha, ih (fun c hc => hw c (List.mem_cons_of_mem a hc))]
    simp

/-- Splitting recovers the word runs from their space-joined form. -/
theorem splitWords_joinWords (ws : List (List Char))
    (h : ∀ w ∈ ws, w ≠ [] ∧ ∀ c ∈ w, isWordChar c) :
    splitWords (joinWords ws) = ws := by
  induction ws with
  | nil => simp [joinWords, splitWords, splitWordsAux]
  | cons w ws ih =>
    obtain ⟨hne, hw⟩ := h w (List.mem_cons_self w ws)
    have hrev : w.reverse ≠ [] := by simpa using hne
    cases ws with
    | nil =>
      show splitWords (joinWords [w]) = [w]
      have : joinWords [w] = w ++ [] := by simp [joinWords]
      rw [this, splitWords, splitWordsAux_word_append w hw [] [], splitWordsAux,
        if_neg (by simpa using hne)]
      simp
    | cons w' ws' =>
      show splitWords (w ++ ' ' :: joinWords (w' :: ws')) = w :: w' :: ws'
      have hsp : ¬ isWordChar ' ' := by decide
      rw [splitWords, splitWordsAux_word_append w hw _ [], splitWordsAux, if_neg hsp,
        if_neg (by simpa using hne)]
      simp only [List.append_nil, List.reverse_reverse]
      rw [show splitWordsAux [] (joinWords (w' :: ws')) = splitWords (joinWords (w' :: ws'))
          from rfl,
        ih (fun v hv => h v (List.mem_cons_of_mem w hv))]

/-- Every character of a space-join of word runs is a word character or `' '`. -/
theorem mem_joinWords (ws : List (List Char))
    (h : ∀ w ∈ ws, ∀ c ∈ w, isWordChar c) :
    ∀ c ∈ joinWords ws, isWordChar c ∨ c = ' ' := by
  induction ws with
  | nil => intro c hc; simp [joinWords] at hc
  | cons w ws ih =>
    cases ws with
    | nil =>
      intro c hc
      exact Or.inl (h w (List.mem_cons_self w []) c hc)
    | cons w' ws' =>
      intro c hc
      rw [show joinWords (w :: w' :: ws') = w ++ ' ' :: joinWords (w' :: ws') from rfl] at hc
      rcases List.mem_append.mp hc with h1 | h1
      · exact Or.inl (h w (List.mem_cons_self w _) c h1)
      · rcases List.mem_cons.mp h1 with h2 | h2
        · exact Or.inr h2
        · exact ih (fun v hv => h v (List.mem_cons_of_mem w hv)) c h2

/-- Applying `str.lower` followed by the punctuation strip is the identity on strings
made of `[a-z0-9]` and spaces. -/
theorem pyClean_id (cs : List Char) (h : ∀ c ∈ cs, isWordChar c ∨ c = ' ') :
    (cs.map lowerChar).map depunctChar = cs := by
  rw [List.map_map]
  have hid : ∀ c ∈ cs, (depunctChar ∘ lowerChar) c = id c := by
    intro c hc
    rcases h c hc with hw | hs
    · have hn : ¬ (65 ≤ c.toNat ∧ c.toNat ≤ 90) := by
        simp only [isWordChar, Bool.or_eq_true, Bool.and_eq_true, decide_eq_true_eq] at hw
        omega
      simp only [Function.comp_apply, lowerChar, if_neg hn, depunctChar, hw, Bool.true_or,
        if_pos, id]
    · subst hs; decide
  rw [List.map_congr_left hid, List.map_id]

/-- C2: `normalize_topic` is idempotent.  Normalized output consists of
nonempty non-junk word runs joined by single spaces, and each pipeline stage
fixes strings of that shape. -/
theorem normalize_topic_idempotent (s : String) :
    normalize_topic (normalize_topic s) = normalize_topic s := by
  show normalize_topic ⟨_⟩ = _
  unfold normalize_topic
  apply congrArg String.mk
  set ws := (splitWords ((s.data.map lowerChar).map depunctChar)).filter
    (fun w => !junkWords.contains w) with hws
  have hsound : ∀ w ∈ ws, w ≠ [] ∧ ∀ c ∈ w, isWordChar c := by
    intro w hw
    exact splitWords_sound _ w (List.mem_of_mem_filter hw)
  show joinWords ((splitWords (((joinWords ws).map lowerChar).map depunctChar)).filter
    (fun w => !junkWords.contains w)) = joinWords ws
  rw [pyClean_id _ (mem_joinWords ws (fun w hw c hc => (hsound w hw).2 c hc)),
    splitWords_joinWords ws hsound,
    List.filter_eq_self.mpr (fun w hw => by
      rw [hws] at hw
      exact (List.mem_filter.mp hw).2)]

/-- Applying `safe_parse_engagement` to a stored numeric engagement value is
the identity, which justifies modelling the `engagement_score` column as `ℚ`
inside the pipeline. -/
theorem safe_parse_num_id (q : ℚ) : safe_parse_engagement (.num q) = .finite q := rfl



/-! ### C1: score/confidence bounds -/

/-- C1 (code-bug evidence): `calculate_trend_score` clamps only the upper
bound.  On `negEngagementVector` — reachable from a single stored mention with
engagement -1500 — it returns -92, outside the claimed interval [0, 100].
`calculate_confidence` does stay in bounds on the same vector (value 25), so
the violation is specific to the trend score's missing lower clamp. -/
theorem trend_score_escapes_lower_bound :
    extract_features (fun _ => 0) "solarflare"
        [{ platform := "radio", topic := "solarflare", content := "",
           engagement := -1500, ts := none }] "unknown_cat" 0 =
      some negEngagementVector ∧
    calculate_trend_score negEngagementVector = -92 ∧
    calculate_trend_score negEngagementVector < 0 ∧
    calculate_confidence negEngagementVector = 25 := by
  refine ⟨?_, ?_, ?_, ?_⟩
  · simp [extract_features, negEngagementVector, ENGAGEMENT_BASELINES, qMax]
    norm_num
  · norm_num [calculate_trend_score, negEngagementVector]
  · norm_num [calculate_trend_score, negEngagementVector]
  · norm_num [calculate_confidence, negEngagementVector]

/-! ### C4: admission policy -/

/-- C4: the admission policy rejects below the mention floor before any
platform consideration, accepts at or above the platform minimum once the
floor holds, and in the remaining single-platform case accepts exactly when
`platform_count = 1` and the score reaches `SINGLE_PLATFORM_MIN_SCORE`; the
boundary values admit and one unit below either threshold rejects. -/
theorem passes_prediction_policy_spec (f : SignalVector) (s : ℚ) :
    (f.total_mentions < MIN_MENTIONS_FOR_TOPIC → passes_prediction_policy f s = false) ∧
    (MIN_MENTIONS_FOR_TOPIC ≤ f.total_mentions →
      MIN_PLATFORMS_FOR_PREDICTION ≤ f.platform_count →
      passes_prediction_policy f s = true) ∧
    (MIN_MENTIONS_FOR_TOPIC ≤ f.total_mentions →
      f.platform_count < MIN_PLATFORMS_FOR_PREDICTION →
      (passes_prediction_policy f s = true ↔
        f.platform_count = 1 ∧ SINGLE_PLATFORM_MIN_SCORE ≤ s)) := by
  refine ⟨fun h => ?_, fun h1 h2 => ?_, fun h1 h2 => ?_⟩
  · rw [passes_prediction_policy, if_pos h]
  · rw [passes_prediction_policy, if_neg (by omega), if_pos h2]
  · rw [passes_prediction_policy, if_neg (by omega), if_neg (by omega)]
    simp

/-- C4 witness: at the exact boundary (`total_mentions = 2`,
`platform_count = 1`, score 75) the policy admits; with `total_mentions = 1`
it rejects; with score 74 it rejects. -/
theorem passes_prediction_policy_spec_witness :
    passes_prediction_policy
      { negEngagementVector with total_mentions := 2, platform_count := 1 } 75 = true ∧
    passes_prediction_policy
      { negEngagementVector with total_mentions := 1, platform_count := 1 } 75 = false ∧
    passes_prediction_policy
      { negEngagementVector with total_mentions := 2, platform_count := 1 } 74 = false := by
  refine ⟨?_, ?_, ?_⟩
  · exact ((passes_prediction_policy_spec
      { negEngagementVector with total_mentions := 2, platform_count := 1 } 75).2.2
      (by decide) (by decide)).mpr ⟨rfl, by norm_num [SINGLE_PLATFORM_MIN_SCORE]⟩
  · exact (passes_prediction_policy_spec
      { negEngagementVector with total_mentions := 1, platform_count := 1 } 75).1 (by decide)
  · have h := (passes_prediction_policy_spec
      { negEngagementVector with total_mentions := 2, platform_count := 1 } 74).2.2
      (by decide) (by decide)
    rcases hb : passes_prediction_policy
      { negEngagementVector with total_mentions := 2, platform_count := 1 } 74 with _ | _
    · rfl
    · exact absurd ((h.mp hb).2) (by norm_num [SINGLE_PLATFORM_MIN_SCORE])

/-! ### C6: prediction-store dedup -/

/-- Helper: when a same-pair row was written within the last hour the call is
a no-op, otherwise it is not. -/
theorem save_prediction_none_iff (tbl : List PredictionRow) (now : ℤ)
    (topic category : String) (s c : ℚ) :
    (save_prediction tbl now topic category s c).1 = none ↔
      ∃ r ∈ tbl, r.topic = topic ∧ r.category = category ∧ now - 3600 < r.predicted_at := by
  rw [save_prediction]
  by_cases h : tbl.any (fun r =>
      decide (r.topic = topic) && decide (r.category = category) &&
      decide (now - 3600 < r.predicted_at))
  · rw [if_pos h]
    simp only [List.any_eq_true, Bool.and_eq_true, decide_eq_true_eq] at h
    obtain ⟨r, hr, ⟨h1, h2⟩, h3⟩ := h
    exact iff_of_true rfl ⟨r, hr, h1, h2, h3⟩
  · rw [if_neg h]
    constructor
    · intro hc; exact absurd hc (by simp)
    · rintro ⟨r, hr, h1, h2, h3⟩
      exact absurd (List.any_eq_true.mpr ⟨r, hr, by simp [h1, h2, h3]⟩) h

/-- C6: `save_prediction` is a no-op returning `none` exactly when a row for
the same `(topic, category)` was created within the last hour (leaving the
table unchanged); starting from a table with no fresh same-pair row, a call
inserts and returns an id, a second call 30 minutes later is a no-op (one new
row in total), while a second call 61 minutes later inserts again (two new
rows). -/
theorem save_prediction_dedup (table : List PredictionRow) (t : ℤ) (topic category : String)
    (s₁ c₁ s₂ c₂ : ℚ)
    (hfresh : ∀ r ∈ table, r.topic = topic → r.category = category →
      r.predicted_at ≤ t - 3600) :
    (∀ (tbl : List PredictionRow) (now : ℤ) (s c : ℚ),
      ((save_prediction tbl now topic category s c).1 = none ↔
        ∃ r ∈ tbl, r.topic = topic ∧ r.category = category ∧ now - 3600 < r.predicted_at) ∧
      ((save_prediction tbl now topic category s c).1 = none →
        (save_prediction tbl now topic category s c).2 = tbl)) ∧
    (save_prediction table t topic category s₁ c₁).1 = some (table.length + 1) ∧
    (save_prediction (save_prediction table t topic category s₁ c₁).2 (t + 1800)
        topic category s₂ c₂).1 = none ∧
    pairCount (save_prediction (save_prediction table t topic category s₁ c₁).2 (t + 1800)
        topic category s₂ c₂).2 topic category
      = pairCount table topic category + 1 ∧
    (save_prediction (save_prediction table t topic category s₁ c₁).2 (t + 3660)
        topic category s₂ c₂).1 = some (table.length + 2) ∧
    pairCount (save_prediction (save_prediction table t topic category s₁ c₁).2 (t + 3660)
        topic category s₂ c₂).2 topic category
      = pairCount table topic category + 2 := by
  have hany1 : table.any (fun r =>
      decide (r.topic = topic) && decide (r.category = category) &&
      decide (t - 3600 < r.predicted_at)) = false := by
    simp only [List.any_eq_false]
    intro r hr
    simp only [Bool.and_eq_true, decide_eq_true_eq]
    rintro ⟨⟨h1, h2⟩, h3⟩
    exact absurd h3 (not_lt.mpr (hfresh r hr h1 h2))
  have hcall1 : save_prediction table t topic category s₁ c₁ =
      (some (table.length + 1),
       table ++ [{ id := table.length + 1, topic := topic, category := category,
                   trend_score := s₁, confidence := c₁, predicted_at := t }]) := by
    rw [save_prediction, if_neg (by simp [hany1])]
  refine ⟨?_, ?_, ?_, ?_, ?_, ?_⟩
  · intro tbl now s c
    refine ⟨save_prediction_none_iff tbl now topic category s c, fun h => ?_⟩
    rw [save_prediction] at h ⊢
    by_cases hb : tbl.any (fun r =>
        decide (r.topic = topic) && decide (r.category = category) &&
        decide (now - 3600 < r.predicted_at))
    · rw [if_pos hb]
    · rw [if_neg hb] at h
      exact absurd h (by simp)
  · rw [hcall1]
  · rw [hcall1, save_prediction]
    split
    · rfl
    · next hcond =>
      refine absurd (List.any_eq_true.mpr ⟨_, List.mem_append_right _ (List.mem_singleton_self _),
        ?_⟩) hcond
      simp only [Bool.and_eq_true, decide_eq_true_eq]
      exact ⟨⟨trivial, trivial⟩, by omega⟩
  · rw [hcall1, save_prediction]
    split
    · simp [pairCount, List.countP_append, List.countP_cons]
    · next hcond =>
      refine absurd (List.any_eq_true.mpr ⟨_, List.mem_append_right _ (List.mem_singleton_self _),
        ?_⟩) hcond
      simp only [Bool.and_eq_true, decide_eq_true_eq]
      exact ⟨⟨trivial, trivial⟩, by omega⟩
  · rw [hcall1, save_prediction]
    split
    · next hcond =>
      exfalso
      simp only [List.any_eq_true, List.mem_append, List.mem_singleton] at hcond
      obtain ⟨r, hr | hr, hp⟩ := hcond
      · simp only [Bool.and_eq_true, decide_eq_true_eq] at hp
        obtain ⟨⟨h1, h2⟩, h3⟩ := hp
        have := hfresh r hr h1 h2
        omega
      · subst hr
        simp only [Bool.and_eq_true, decide_eq_true_eq] at hp
        omega
    · simp
  · rw [hcall1, save_prediction]
    split
    · next hcond =>
      exfalso
      simp only [List.any_eq_true, List.mem_append, List.mem_singleton] at hcond
      obtain ⟨r, hr | hr, hp⟩ := hcond
      · simp only [Bool.and_eq_true, decide_eq_true_eq] at hp
        obtain ⟨⟨h1, h2⟩, h3⟩ := hp
        have := hfresh r hr h1 h2
        omega
      · subst hr
        simp only [Bool.and_eq_true, decide_eq_true_eq] at hp
        omega
    · simp [pairCount, List.countP_append, List.countP_cons]

/-- C6 witness: from the empty table at time 0 the first call inserts (id 1),
a repeat at minute 30 is a no-op leaving one row, and a repeat at minute 61
inserts a second row. -/
theorem save_prediction_dedup_witness :
    (save_prediction [] 0 "ai agents" "tech_ai" 70 80).1 = some 1 ∧
    (save_prediction (save_prediction [] 0 "ai agents" "tech_ai" 70 80).2 1800
        "ai agents" "tech_ai" 70 80).1 = none ∧
    pairCount (save_prediction (save_prediction [] 0 "ai agents" "tech_ai" 70 80).2 1800
        "ai agents" "tech_ai" 70 80).2 "ai agents" "tech_ai" = 1 ∧
    (save_prediction (save_prediction [] 0 "ai agents" "tech_ai" 70 80).2 3660
        "ai agents" "tech_ai" 70 80).1 = some 2 ∧
    pairCount (save_prediction (save_prediction [] 0 "ai agents" "tech_ai" 70 80).2 3660
        "ai agents" "tech_ai" 70 80).2 "ai agents" "tech_ai" = 2 := by
  have h := save_prediction_dedup [] 0 "ai agents" "tech_ai" 70 80 70 80 (by simp)
  have hpc : pairCount [] "ai agents" "tech_ai" = 0 := by simp [pairCount]
  refine ⟨by simpa using h.2.1, by simpa using h.2.2.1, ?_, ?_, ?_⟩
  · have := h.2.2.2.1
    rw [hpc] at this
    simpa using this
  · simpa using h.2.2.2.2.1
  · have := h.2.2.2.2.2
    rw [hpc] at this
    simpa using this

/-! ### Sorting facts shared by C5 and C8 -/

/-- Membership is preserved by the descending insertion. -/
theorem mem_insertScoreDesc {p q : Prediction} {l : List Prediction} :
    q ∈ insertScoreDesc p l ↔ q = p ∨ q ∈ l := by
  induction l with
  | nil => simp [insertScoreDesc]
  | cons r rs ih =>
    rw [insertScoreDesc]
    by_cases h : r.trend_score ≤ p.trend_score
    · simp [h]
    · rw [if_neg h]
      simp only [List.mem_cons, ih]
      tauto

/-- The sort is a permutation as far as membership is concerned. -/
theorem mem_sortScoreDesc {q : Prediction} {l : List Prediction} :
    q ∈ sortScoreDesc l ↔ q ∈ l := by
  induction l with
  | nil => simp [sortScoreDesc]
  | cons r rs ih =>
    rw [sortScoreDesc]
    simp only [mem_insertScoreDesc, ih, List.mem_cons]

/-- Inserting into a descending-sorted list keeps it sorted. -/
theorem pairwise_insertScoreDesc {p : Prediction} {l : List Prediction}
    (h : l.Pairwise (fun a b => b.trend_score ≤ a.trend_score)) :
    (insertScoreDesc p l).Pairwise (fun a b => b.trend_score ≤ a.trend_score) := by
  induction l with
  | nil => simp [insertScoreDesc]
  | cons r rs ih =>
    rw [insertScoreDesc]
    rcases List.pairwise_cons.mp h with ⟨hr, hrs⟩
    by_cases hle : r.trend_score ≤ p.trend_score
    · rw [if_pos hle]
      refine List.pairwise_cons.mpr ⟨?_, h⟩
      intro x hx
      rcases List.mem_cons.mp hx with rfl | hx
      · exact hle
      · exact le_trans (hr x hx) hle
    · rw [if_neg hle]
      refine List.pairwise_cons.mpr ⟨?_, ih hrs⟩
      intro x hx
      rcases mem_insertScoreDesc.mp hx with rfl | hx
      · exact le_of_lt (lt_of_not_le hle)
      · exact hr x hx

/-- The output of `sortScoreDesc` is sorted by `trend_score` descending. -/
theorem pairwise_sortScoreDesc (l : List Prediction) :
    (sortScoreDesc l).Pairwise (fun a b => b.trend_score ≤ a.trend_score) := by
  induction l with
  | nil => simp [sortScoreDesc]
  | cons r rs ih =>
    rw [sortScoreDesc]
    exact pairwise_insertScoreDesc ih

/-! ### C8 / C9: per-user alert selection -/

/-- Helper: any selected prediction is a strong candidate whose category
survived the category cooldown. -/
theorem mem_filter_predictions_for_user {alerts : List AlertRow} {email : String}
    {predictions : List Prediction} {now : ℤ} {p : Prediction}
    (hp : p ∈ filter_predictions_for_user alerts email predictions now) :
    p ∈ predictions ∧ ALERT_MIN_TREND_SCORE ≤ p.trend_score ∧
      ALERT_MIN_CONFIDENCE ≤ p.confidence ∧
      was_user_alerted_for_category alerts email p.category
        ALERT_CATEGORY_COOLDOWN_HOURS now = false := by
  rw [filter_predictions_for_user] at hp
  split at hp
  · simp at hp
  · have hp1 := List.mem_of_mem_take hp
    rw [mem_sortScoreDesc] at hp1
    rw [List.mem_flatten] at hp1
    obtain ⟨l, hl, hpl⟩ := hp1
    rw [List.mem_map] at hl
    obtain ⟨cat, -, rfl⟩ := hl
    by_cases hcd : was_user_alerted_for_category alerts email cat
        ALERT_CATEGORY_COOLDOWN_HOURS now
    · rw [if_pos hcd] at hpl
      simp at hpl
    · rw [if_neg hcd] at hpl
      have hmem := (List.mem_filter.mp hpl).1
      rw [mem_sortScoreDesc] at hmem
      obtain ⟨hstrong, hcat⟩ := List.mem_filter.mp hmem
      have hcat' : p.category = cat := by simpa using hcat
      obtain ⟨hpred, hth⟩ := List.mem_filter.mp hstrong
      simp only [Bool.and_eq_true, decide_eq_true_eq] at hth
      exact ⟨hpred, hth.1, hth.2, by rw [hcat']; exact Bool.eq_false_iff.mpr hcd⟩

/-- C8: every selected alert meets both configured thresholds independently,
the selection is sorted by `trend_score` descending, and at most
`ALERT_MAX_ITEMS_PER_EMAIL` items are selected. -/
theorem filter_predictions_for_user_spec (alerts : List AlertRow) (email : String)
    (predictions : List Prediction) (now : ℤ) :
    (∀ p ∈ filter_predictions_for_user alerts email predictions now,
      ALERT_MIN_TREND_SCORE ≤ p.trend_score ∧ ALERT_MIN_CONFIDENCE ≤ p.confidence) ∧
    (filter_predictions_for_user alerts email predictions now).Pairwise
      (fun a b => b.trend_score ≤ a.trend_score) ∧
    (filter_predictions_for_user alerts email predictions now).length ≤
      ALERT_MAX_ITEMS_PER_EMAIL := by
  refine ⟨fun p hp => ⟨(mem_filter_predictions_for_user hp).2.1,
    (mem_filter_predictions_for_user hp).2.2.1⟩, ?_, ?_⟩
  · rw [filter_predictions_for_user]
    split
    · simp
    · exact (pairwise_sortScoreDesc _).sublist (List.take_sublist _ _)
  · rw [filter_predictions_for_user]
    split
    · simp
    · exact List.length_take_le _ _

/-- C8 witness: on a concrete candidate list one prediction above both
thresholds is selected (its thresholds hold), and the selection length is
within the batch limit. -/
theorem filter_predictions_for_user_spec_witness :
    (ALERT_MIN_TREND_SCORE ≤ ((90 : ℚ)) ∧ ALERT_MIN_CONFIDENCE ≤ ((95 : ℚ))) ∧
    (filter_predictions_for_user [] "u@example.com"
      [{ topic := "a", category := "tech_ai", trend_score := 80, confidence := 70 },
       { topic := "b", category := "tech_ai", trend_score := 90, confidence := 95 },
       { topic := "c", category := "tech_ai", trend_score := 50, confidence := 99 }]
      0).length ≤ ALERT_MAX_ITEMS_PER_EMAIL := by
  have h := filter_predictions_for_user_spec [] "u@example.com"
    [{ topic := "a", category := "tech_ai", trend_score := 80, confidence := 70 },
     { topic := "b", category := "tech_ai", trend_score := 90, confidence := 95 },
     { topic := "c", category := "tech_ai", trend_score := 50, confidence := 99 }] 0
  exact ⟨h.1 { topic := "b", category := "tech_ai", trend_score := 90, confidence := 95 }
    (by decide), h.2.2⟩

/-- C9: whenever the ledger holds an alert record for the user and category
dated at or after `now` minus the cooldown window — the boundary record at
exactly the cutoff included — every candidate of that category is dropped
from the user's selection. -/
theorem category_cooldown_drops_category (alerts : List AlertRow) (email category : String)
    (predictions : List Prediction) (now : ℤ)
    (h : ∃ r ∈ alerts, r.email = email ∧ r.category = category ∧
      now - ALERT_CATEGORY_COOLDOWN_HOURS * 3600 ≤ r.alerted_at) :
    ∀ p ∈ filter_predictions_for_user alerts email predictions now,
      p.category ≠ category := by
  intro p hp hcat
  have hfalse := (mem_filter_predictions_for_user hp).2.2.2
  rw [hcat] at hfalse
  obtain ⟨r, hr, h1, h2, h3⟩ := h
  have htrue : was_user_alerted_for_category alerts email category
      ALERT_CATEGORY_COOLDOWN_HOURS now = true :=
    List.any_eq_true.mpr ⟨r, hr, by simp [h1, h2, h3]⟩
  rw [htrue] at hfalse
  simp at hfalse

/-- C9 witness: with an alert record dated exactly at the cooldown cutoff
(`now - 6h`), a candidate in the same category is dropped. -/
theorem category_cooldown_drops_category_witness :
    (∃ r ∈ [boundaryAlertRow], r.email = "u@example.com" ∧ r.category = "tech_ai" ∧
      (0 : ℤ) - ALERT_CATEGORY_COOLDOWN_HOURS * 3600 ≤ r.alerted_at) ∧
    ∀ p ∈ filter_predictions_for_user [boundaryAlertRow] "u@example.com" [freshCandidate] 0,
      p.category ≠ "tech_ai" := by
  have hex : ∃ r ∈ [boundaryAlertRow], r.email = "u@example.com" ∧ r.category = "tech_ai" ∧
      (0 : ℤ) - ALERT_CATEGORY_COOLDOWN_HOURS * 3600 ≤ r.alerted_at := by
    refine ⟨boundaryAlertRow, List.mem_singleton_self _, rfl, rfl, ?_⟩
    norm_num [ALERT_CATEGORY_COOLDOWN_HOURS, boundaryAlertRow]
  exact ⟨hex, category_cooldown_drops_category _ "u@example.com" "tech_ai" _ 0 hex⟩

/-! ### C5: per-cycle top-N submission -/

/-- Helper: unpacking one element of the per-topic loop. -/
theorem mem_cycle_predictions {log1p : ℕ → ℚ} {data_points : List DataPoint}
    {category : String} {now : ℤ} {p : Prediction}
    (hp : p ∈ cycle_predictions log1p data_points category now) :
    ∃ f, extract_features log1p p.topic data_points category now = some f ∧
      passes_prediction_policy f (calculate_trend_score f) = true ∧
      p.trend_score = calculate_trend_score f ∧
      p.confidence = calculate_confidence f ∧
      p.category = category ∧
      TREND_SCORE_THRESHOLD ≤ p.trend_score := by
  rw [cycle_predictions, List.mem_filterMap] at hp
  obtain ⟨topic, -, hg⟩ := hp
  cases hext : extract_features log1p topic data_points category now with
  | none => rw [hext] at hg; exact absurd hg (by simp)
  | some f =>
    rw [hext] at hg
    simp only at hg
    by_cases hpol : passes_prediction_policy f (calculate_trend_score f)
    · rw [if_pos hpol] at hg
      by_cases hth : TREND_SCORE_THRESHOLD ≤ calculate_trend_score f
      · rw [if_pos hth] at hg
        obtain rfl := Option.some_injective _ hg
        exact ⟨f, hext, hpol, rfl, rfl, rfl, hth⟩
      · rw [if_neg hth] at hg
        exact absurd hg (by simp)
    · rw [if_neg hpol] at hg
      exact absurd hg (by simp)

/-- C5: in each cycle the predictions submitted to the store are admitted,
threshold-passing candidates (each carries the score and confidence of its
extracted signal vector), at most `TOP_N_PREDICTIONS_TO_SAVE` of them, in
descending score order; an admitted, threshold-passing candidate that is not
submitted is only dropped because the submitted list is full and every
submitted score is at least its own — the cycle still returns it, so the drop
is silent, not an error. -/
theorem saved_predictions_spec (log1p : ℕ → ℚ) (data_points : List DataPoint)
    (category : String) (now : ℤ) :
    (∀ p ∈ saved_predictions log1p data_points category now,
      p ∈ cycle_predictions log1p data_points category now) ∧
    (∀ p ∈ cycle_predictions log1p data_points category now,
      ∃ f, extract_features log1p p.topic data_points category now = some f ∧
        passes_prediction_policy f (calculate_trend_score f) = true ∧
        p.trend_score = calculate_trend_score f ∧
        p.confidence = calculate_confidence f ∧
        p.category = category ∧
        TREND_SCORE_THRESHOLD ≤ p.trend_score) ∧
    (saved_predictions log1p data_points category now).length ≤
      TOP_N_PREDICTIONS_TO_SAVE ∧
    (saved_predictions log1p data_points category now).Pairwise
      (fun a b => b.trend_score ≤ a.trend_score) ∧
    (∀ p ∈ cycle_predictions log1p data_points category now,
      p ∈ saved_predictions log1p data_points category now ∨
        ((saved_predictions log1p data_points category now).length =
            TOP_N_PREDICTIONS_TO_SAVE ∧
          ∀ q ∈ saved_predictions log1p data_points category now,
            p.trend_score ≤ q.trend_score)) := by
  refine ⟨?_, fun p hp => mem_cycle_predictions hp, ?_, ?_, ?_⟩
  · intro p hp
    have h1 := List.mem_of_mem_take hp
    rwa [predict_trends, mem_sortScoreDesc] at h1
  · exact List.length_take_le _ _
  · exact (pairwise_sortScoreDesc _).sublist (List.take_sublist _ _)
  · intro p hp
    have hsorted : p ∈ predict_trends log1p data_points category now := by
      rw [predict_trends, mem_sortScoreDesc]; exact hp
    rw [← List.take_append_drop TOP_N_PREDICTIONS_TO_SAVE
      (predict_trends log1p data_points category now)] at hsorted
    rcases List.mem_append.mp hsorted with htake | hdrop
    · exact Or.inl htake
    · right
      have hpw := pairwise_sortScoreDesc (cycle_predictions log1p data_points category now)
      rw [show sortScoreDesc (cycle_predictions log1p data_points category now) =
          predict_trends log1p data_points category now from rfl,
        ← List.take_append_drop TOP_N_PREDICTIONS_TO_SAVE
          (predict_trends log1p data_points category now),
        List.pairwise_append] at hpw
      refine ⟨?_, fun q hq => hpw.2.2 q hq p hdrop⟩
      have hlen : TOP_N_PREDICTIONS_TO_SAVE <
          (predict_trends log1p data_points category now).length := by
        by_contra hcon
        rw [List.drop_eq_nil_of_le (le_of_not_lt hcon)] at hdrop
        simp at hdrop
      rw [saved_predictions, List.length_take]
      omega

set_option maxHeartbeats 1000000 in
/-- Helper evaluation: the demo cycle submits exactly the "gold" prediction. -/
theorem demo_saved_eval :
    saved_predictions (fun _ => 0) [demoDp1, demoDp2] "c" 0 = [demoSavedPred] := by
  have hext : extract_features (fun _ => 0) "gold" [demoDp1, demoDp2] "c" 0 = some fGold := by
    have hB : ENGAGEMENT_BASELINES "c" = 150 := by decide
    have hdiv : (300:ℚ) / max (150:ℚ) 1 = 2 := by norm_num
    have hded : (["alpha","beta"] : List String).dedup.length = 2 := by decide
    norm_num [extract_features, demoDp1, demoDp2, fGold, hB, hdiv, hded, qMax]
    decide
  have hscore : calculate_trend_score fGold = 113/2 := by
    norm_num [calculate_trend_score, fGold]
  have hconf : calculate_confidence fGold = 72 := by
    norm_num [calculate_confidence, fGold]
  have hct : candidate_topics [demoDp1, demoDp2] = ["gold"] := by decide
  have hcycle : cycle_predictions (fun _ => 0) [demoDp1, demoDp2] "c" 0 = [demoSavedPred] := by
    rw [cycle_predictions, hct]
    simp only [List.filterMap, hext, hscore, hconf]
    rw [if_pos (by decide), if_pos (by norm_num [TREND_SCORE_THRESHOLD])]
    simp [demoSavedPred, hscore, hconf]
  rw [saved_predictions, predict_trends, hcycle]
  simp [sortScoreDesc, insertScoreDesc, TOP_N_PREDICTIONS_TO_SAVE]

/-- C5 witness: on a concrete two-mention cycle the single admitted candidate
is submitted: it is an admitted cycle candidate with score above the
threshold, and the submitted list is within the top-N bound. -/
theorem saved_predictions_spec_witness :
    demoSavedPred ∈ cycle_predictions (fun _ => 0) [demoDp1, demoDp2] "c" 0 ∧
    TREND_SCORE_THRESHOLD ≤ demoSavedPred.trend_score ∧
    (saved_predictions (fun _ => 0) [demoDp1, demoDp2] "c" 0).length ≤
      TOP_N_PREDICTIONS_TO_SAVE := by
  have h := saved_predictions_spec (fun _ => 0) [demoDp1, demoDp2] "c" 0
  have hmem : demoSavedPred ∈ saved_predictions (fun _ => 0) [demoDp1, demoDp2] "c" 0 := by
    rw [demo_saved_eval]; exact List.mem_singleton_self _
  have hc := h.1 demoSavedPred hmem
  obtain ⟨f, -, -, -, -, -, hth⟩ := h.2.1 demoSavedPred hc
  exact ⟨hc, hth, h.2.2.1⟩

/-! ### C7: velocity and malformed timestamps -/

/-- Helper: the velocity loop counts exactly the mentions whose timestamp
parsed and lies inside the 6-hour window; a malformed timestamp contributes
nothing. -/
theorem recent_fold_eq_countP (now : ℤ) (l : List DataPoint) (a : ℕ) :
    l.foldl (fun acc dp => match dp.ts with
      | some t => if now - 6 * 3600 < t then acc + 1 else acc
      | none => acc) a =
    a + l.countP (fun dp => match dp.ts with
      | some t => decide (now - 6 * 3600 < t)
      | none => false) := by
  induction l generalizing a with
  | nil => simp
  | cons dp l ih =>
    rw [List.foldl_cons, List.countP_cons]
    cases hts : dp.ts with
    | none => rw [ih]; simp [hts]
    | some t =>
      by_cases h : now - 21600 < t
      · rw [ih]; simp [hts, h]; omega
      · rw [ih]; simp [hts, h]

/-- Helper: extraction succeeds on any nonempty matching set, with the
velocity computed from the parseable recent timestamps and `total_mentions`
counting the matching mentions. -/
theorem extract_features_some (log1p : ℕ → ℚ) (topic : String)
    (data_points : List DataPoint) (category : String) (now : ℤ)
    (h : data_points.filter
      (fun dp => normalize_topic dp.topic = normalize_topic topic) ≠ []) :
    ∃ f, extract_features log1p topic data_points category now = some f ∧
      f.velocity =
        ((data_points.filter
            (fun dp => normalize_topic dp.topic = normalize_topic topic)).countP
          (fun dp => match dp.ts with
            | some t => decide (now - 6 * 3600 < t)
            | none => false) : ℚ) /
        ((max (data_points.filter
            (fun dp => normalize_topic dp.topic = normalize_topic topic)).length 1 : ℕ) : ℚ) ∧
      f.total_mentions = (data_points.filter
        (fun dp => normalize_topic dp.topic = normalize_topic topic)).length := by
  rw [extract_features]
  simp only
  rw [if_neg h, if_neg (by simpa using h)]
  refine ⟨_, rfl, ?_, by simp⟩
  simp only
  rw [recent_fold_eq_countP]
  simp

/-- C7: whenever the topic has matching mentions, feature extraction returns a
vector (it never fails on a bad record) whose velocity is the number of
matching mentions with a parseable `observed_at` inside the last 6 hours —
malformed timestamps are counted as not recent — divided by
`max(total_mentions, 1)`. -/
theorem extract_features_velocity (log1p : ℕ → ℚ) (topic : String)
    (data_points : List DataPoint) (category : String) (now : ℤ)
    (h : data_points.filter
      (fun dp => normalize_topic dp.topic = normalize_topic topic) ≠ []) :
    ∃ f, extract_features log1p topic data_points category now = some f ∧
      f.velocity =
        ((data_points.filter
            (fun dp => normalize_topic dp.topic = normalize_topic topic)).countP
          (fun dp => match dp.ts with
            | some t => decide (now - 6 * 3600 < t)
            | none => false) : ℚ) /
        ((max (data_points.filter
            (fun dp => normalize_topic dp.topic = normalize_topic topic)).length 1 : ℕ) : ℚ) ∧
      f.total_mentions = (data_points.filter
        (fun dp => normalize_topic dp.topic = normalize_topic topic)).length :=
  extract_features_some log1p topic data_points category now h

/-- C7 witness: with one recent mention and one malformed-timestamp mention,
extraction succeeds and the velocity is 1/2 — the malformed record is counted
as not recent rather than raising. -/
theorem extract_features_velocity_witness :
    (([recentMention, malformedMention].filter
      (fun dp => normalize_topic dp.topic = normalize_topic "ai")) ≠ []) ∧
    (extract_features (fun _ => 0) "ai" [recentMention, malformedMention] "c" 0).map
      (fun f => f.velocity) = some (1/2) := by
  have hne : (([recentMention, malformedMention].filter
      (fun dp => normalize_topic dp.topic = normalize_topic "ai")) ≠ []) := by
    simp [recentMention, malformedMention]
  obtain ⟨f, hf, hv, -⟩ :=
    extract_features_velocity (fun _ => 0) "ai" [recentMention, malformedMention] "c" 0 hne
  refine ⟨hne, ?_⟩
  rw [hf, Option.map_some', hv]
  have hc : ([recentMention, malformedMention].filter
      (fun dp => normalize_topic dp.topic = normalize_topic "ai")).countP
        (fun dp => match dp.ts with
          | some t => decide ((0 : ℤ) - 6 * 3600 < t)
          | none => false) = 1 := by
    simp [recentMention, malformedMention, List.countP_cons]
  have hl : ([recentMention, malformedMention].filter
      (fun dp => normalize_topic dp.topic = normalize_topic "ai")).length = 2 := by
    simp [recentMention, malformedMention]
  rw [hc, hl]
  norm_num

/-! ### C3: mentions whose topic canonicalizes to the empty string -/

/-- Helper: membership in the first-occurrence dedup. -/
theorem mem_firstOccurrencesAux (l : List String) :
    ∀ (seen : List String) (x : String),
      x ∈ firstOccurrencesAux seen l ↔ x ∈ l ∧ x ∉ seen := by
  induction l with
  | nil => intro seen x; simp [firstOccurrencesAux]
  | cons y ys ih =>
    intro seen x
    rw [firstOccurrencesAux]
    by_cases hy : seen.contains y
    · rw [if_pos hy, ih]
      have hyseen : y ∈ seen := by simpa using hy
      simp only [List.mem_cons]
      constructor
      · rintro ⟨hx, hnx⟩; exact ⟨Or.inr hx, hnx⟩
      · rintro ⟨hx | hx, hnx⟩
        · exact absurd (hx ▸ hyseen) hnx
        · exact ⟨hx, hnx⟩
    · rw [if_neg hy]
      have hyseen : y ∉ seen := by simpa using hy
      simp only [List.mem_cons, ih]
      constructor
      · rintro (rfl | ⟨hx, hnx⟩)
        · exact ⟨Or.inl rfl, hyseen⟩
        · exact ⟨Or.inr hx, fun hc => hnx (Or.inr hc)⟩
      · rintro ⟨rfl | hx, hnx⟩
        · exact Or.inl rfl
        · by_cases hxy : x = y
          · exact Or.inl hxy
          · exact Or.inr ⟨hx, fun hc => hc.elim hxy hnx⟩

/-- Helper: an element is a candidate topic iff it occurs as a raw topic and
is nonempty. -/
theorem mem_candidate_topics (data_points : List DataPoint) (x : String) :
    x ∈ candidate_topics data_points ↔
      (x ∈ data_points.map (fun dp => dp.topic) ∧ x ≠ "") := by
  rw [candidate_topics, firstOccurrences, mem_firstOccurrencesAux]
  simp [List.mem_filter]

set_option maxHeartbeats 1000000 in
/-- C3 counterexample: the mention `dp2024` canonicalizes to the empty string,
yet it is not excluded: extraction for its topic returns a signal vector
counting it (together with the other empty-canonical mention), and the cycle
stores a prediction for the raw topic "2024".  It therefore contributes to a
signal vector, a score, and a prediction. -/
theorem empty_canonical_mention_contributes :
    normalize_topic "2024" = "" ∧
    extract_features (fun _ => 0) "2024" [dp2024, dpNews] "c" 0 = some fGold ∧
    pred2024 ∈ saved_predictions (fun _ => 0) [dp2024, dpNews] "c" 0 := by
  have hn1 : normalize_topic "2024" = "" := by decide
  have hext : extract_features (fun _ => 0) "2024" [dp2024, dpNews] "c" 0 = some fGold := by
    have hB : ENGAGEMENT_BASELINES "c" = 150 := by decide
    have hdiv : (300:ℚ) / max (150:ℚ) 1 = 2 := by norm_num
    have hded : (["alpha","beta"] : List String).dedup.length = 2 := by decide
    have hmatch : ([dp2024, dpNews].filter
        (fun dp => normalize_topic dp.topic = normalize_topic "2024")) = [dp2024, dpNews] := by
      decide
    rw [extract_features]
    simp only [hmatch]
    norm_num [dp2024, dpNews, fGold, hB, hdiv, hded, qMax]
    decide
  have hext2 : extract_features (fun _ => 0) "news" [dp2024, dpNews] "c" 0 = some fGold := by
    have hB : ENGAGEMENT_BASELINES "c" = 150 := by decide
    have hdiv : (300:ℚ) / max (150:ℚ) 1 = 2 := by norm_num
    have hded : (["alpha","beta"] : List String).dedup.length = 2 := by decide
    have hmatch : ([dp2024, dpNews].filter
        (fun dp => normalize_topic dp.topic = normalize_topic "news")) = [dp2024, dpNews] := by
      decide
    rw [extract_features]
    simp only [hmatch]
    norm_num [dp2024, dpNews, fGold, hB, hdiv, hded, qMax]
    decide
  have hscore : calculate_trend_score fGold = 113/2 := by
    norm_num [calculate_trend_score, fGold]
  have hconf : calculate_confidence fGold = 72 := by
    norm_num [calculate_confidence, fGold]
  have hct : candidate_topics [dp2024, dpNews] = ["2024", "news"] := by decide
  have hcycle : cycle_predictions (fun _ => 0) [dp2024, dpNews] "c" 0 =
      [pred2024, { pred2024 with topic := "news" }] := by
    rw [cycle_predictions, hct]
    simp only [List.filterMap, hext, hext2, hscore, hconf]
    have hpol : passes_prediction_policy fGold (113 / 2) = true := by decide
    have hth : TREND_SCORE_THRESHOLD ≤ 113 / 2 := by norm_num [TREND_SCORE_THRESHOLD]
    simp [hpol, hth, pred2024]
  refine ⟨hn1, hext, ?_⟩
  rw [saved_predictions, predict_trends, hcycle]
  have hsort : sortScoreDesc [pred2024, { pred2024 with topic := "news" }] =
      [pred2024, { pred2024 with topic := "news" }] := by
    simp [sortScoreDesc, insertScoreDesc]
  rw [hsort]
  simp [TOP_N_PREDICTIONS_TO_SAVE]

/-- C3 amended: only mentions whose raw topic string is empty are excluded
from generating candidate topics; a mention with a nonempty raw topic that
canonicalizes to the empty string still participates fully — its raw topic is
a candidate, it matches its own topic's mention set together with every other
empty-canonical mention, and feature extraction succeeds on that set. -/
theorem empty_canonical_mention_amended (log1p : ℕ → ℚ) (data_points : List DataPoint)
    (category : String) (now : ℤ) (dp : DataPoint) (hdp : dp ∈ data_points)
    (hnorm : normalize_topic dp.topic = "") (hne : dp.topic ≠ "") :
    "" ∉ candidate_topics data_points ∧
    dp.topic ∈ candidate_topics data_points ∧
    dp ∈ data_points.filter
      (fun dq => normalize_topic dq.topic = normalize_topic dp.topic) ∧
    (∀ dq ∈ data_points, normalize_topic dq.topic = "" →
      dq ∈ data_points.filter
        (fun dq' => normalize_topic dq'.topic = normalize_topic dp.topic)) ∧
    ∃ f, extract_features log1p dp.topic data_points category now = some f ∧
      f.total_mentions = (data_points.filter
        (fun dq => normalize_topic dq.topic = normalize_topic dp.topic)).length := by
  have hmem : dp ∈ data_points.filter
      (fun dq => normalize_topic dq.topic = normalize_topic dp.topic) :=
    List.mem_filter.mpr ⟨hdp, by simp⟩
  refine ⟨?_, ?_, hmem, ?_, ?_⟩
  · intro hc
    exact absurd ((mem_candidate_topics data_points "").mp hc).2 (by simp)
  · exact (mem_candidate_topics data_points dp.topic).mpr
      ⟨List.mem_map.mpr ⟨dp, hdp, rfl⟩, hne⟩
  · intro dq hdq hdqn
    exact List.mem_filter.mpr ⟨hdq, by simp [hdqn, hnorm]⟩
  · obtain ⟨f, hf, -, hlen⟩ := extract_features_some log1p dp.topic data_points category now
      (by intro hc; rw [hc] at hmem; simp at hmem)
    exact ⟨f, hf, hlen⟩

/-- C3 amended witness: instantiated at the "2024" mention among the demo
data points. -/
theorem empty_canonical_mention_amended_witness :
    "" ∉ candidate_topics [dp2024, dpNews] ∧
    dp2024.topic ∈ candidate_topics [dp2024, dpNews] ∧
    dp2024 ∈ ([dp2024, dpNews].filter
      (fun dq => normalize_topic dq.topic = normalize_topic dp2024.topic)) ∧
    (∀ dq ∈ [dp2024, dpNews], normalize_topic dq.topic = "" →
      dq ∈ ([dp2024, dpNews].filter
        (fun dq' => normalize_topic dq'.topic = normalize_topic dp2024.topic))) ∧
    ∃ f, extract_features (fun _ => 0) dp2024.topic [dp2024, dpNews] "c" 0 = some f ∧
      f.total_mentions = ([dp2024, dpNews].filter
        (fun dq => normalize_topic dq.topic = normalize_topic dp2024.topic)).length :=
  empty_canonical_mention_amended (fun _ => 0) [dp2024, dpNews] "c" 0 dp2024
    (List.mem_cons_self _ _) (by decide) (by decide)

/-! ### C10: totality and range of the engagement parser -/

/-- Helper: outside the `inf`/`infinity`/`nan` branches the parser core only
produces finite values. -/
theorem parsePyFloatCore_finite (cs : List Char)
    (h1 : ¬(cs = String.data "inf" ∨ cs = String.data "infinity"))
    (h2 : ¬cs = String.data "nan") :
    ∀ f, parsePyFloatCore cs = some f → f.isFinite = true := by
  intro f hf
  simp only [parsePyFloatCore, if_neg h1, if_neg h2] at hf
  repeat' split at hf
  all_goals try (cases hf; rfl)
  all_goals simp_all [PyFloat.isFinite]

/-- Helper: a parsed float is finite unless the input spells a special
non-finite literal. -/
theorem floatOfPyString_finite (s : List Char)
    (hsp : isSpecialFloatString s = false) :
    ∀ f, floatOfPyString s = some f → f.isFinite = true := by
  intro f hf
  rw [isSpecialFloatString] at hsp
  simp only [Bool.or_eq_false_iff, decide_eq_false_iff_not] at hsp
  rw [floatOfPyString] at hf
  split at hf
  · next g hg =>
    have hgfin := parsePyFloatCore_finite _ (by tauto) (by tauto) g hg
    obtain rfl := Option.some_injective _ hf
    cases g with
    | finite q => cases hp : (signSplit (pyStrip s)).1 <;> simp [hp, PyFloat.neg, PyFloat.isFinite]
    | inf => simp [PyFloat.isFinite] at hgfin
    | neginf => simp [PyFloat.isFinite] at hgfin
    | nan => simp [PyFloat.isFinite] at hgfin
  · exact absurd hf (by simp)

/-- C10 counterexample: the engagement string "inf" is accepted by CPython
`float()` and parses to positive infinity, which is not a finite value. -/
theorem safe_parse_engagement_inf_not_finite :
    safe_parse_engagement (.str "inf") = PyFloat.inf ∧
    (safe_parse_engagement (.str "inf")).isFinite = false := by decide

/-- C10 (amended): the engagement parser is a total function with: `None` and
unparseable strings mapped to 0, numbers passed through, trimmed
case-insensitive "breakout" mapped to 100, other strings cleaned (commas and
plus signs removed, one trailing percent dropped) and parsed by `float()`;
the result is finite unless the cleaned string spells an optionally signed
`inf`/`infinity`/`nan`. -/
theorem safe_parse_engagement_spec :
    safe_parse_engagement .pyNone = .finite 0 ∧
    (∀ q : ℚ, safe_parse_engagement (.num q) = .finite q) ∧
    (∀ s : String, (pyStrip s.data).map lowerChar = String.data "breakout" →
      safe_parse_engagement (.str s) = .finite 100) ∧
    (∀ s : String, ¬((pyStrip s.data).map lowerChar = String.data "breakout") →
      floatOfPyString (cleanedEngagement (pyStrip s.data)) = none →
      safe_parse_engagement (.str s) = .finite 0) ∧
    (∀ s : String, ∀ f, ¬((pyStrip s.data).map lowerChar = String.data "breakout") →
      floatOfPyString (cleanedEngagement (pyStrip s.data)) = some f →
      safe_parse_engagement (.str s) = f) ∧
    (∀ s : String, isSpecialFloatString (cleanedEngagement (pyStrip s.data)) = false →
      (safe_parse_engagement (.str s)).isFinite = true) := by
  refine ⟨rfl, fun q => rfl, ?_, ?_, ?_, ?_⟩
  · intro s hb
    rw [safe_parse_engagement]
    simp only [hb, if_pos]
  · intro s hb hnone
    rw [safe_parse_engagement]
    simp only [if_neg hb, hnone]
  · intro s f hb hsome
    rw [safe_parse_engagement]
    simp only [if_neg hb, hsome]
  · intro s hsp
    rw [safe_parse_engagement]
    by_cases hb : (pyStrip s.data).map lowerChar = String.data "breakout"
    · simp only [hb, if_pos]
      rfl
    · simp only [if_neg hb]
      cases hfl : floatOfPyString (cleanedEngagement (pyStrip s.data)) with
      | none => rfl
      | some f => exact floatOfPyString_finite _ hsp f hfl

/-- C10 witness: concrete behaviours — trimmed "BreakOut" maps to 100, the
unparseable "abc" maps to 0, "7" parses to 7, and "12%" yields a finite
value. -/
theorem safe_parse_engagement_spec_witness :
    safe_parse_engagement (.str " BreakOut ") = .finite 100 ∧
    safe_parse_engagement (.str "abc") = .finite 0 ∧
    safe_parse_engagement (.str "7") = .finite 7 ∧
    (safe_parse_engagement (.str "12%")).isFinite = true := by
  have h := safe_parse_engagement_spec
  refine ⟨h.2.2.1 _ (by decide), h.2.2.2.1 _ (by decide) (by decide), ?_,
    h.2.2.2.2.2 _ (by decide)⟩
  have hcore : parsePyFloatCore ['7'] = some (.finite 7) := by
    have hd7 : '7'.isDigit = true := by decide
    have hr1 : ¬ (RunState.afterDigit = RunState.afterUnderscore) := by decide
    have hr2 : ¬ (RunState.start = RunState.afterUnderscore) := by decide
    rw [parsePyFloatCore, if_neg (by decide), if_neg (by decide)]
    have h7 : '7'.toNat - 48 = 7 := by decide
    norm_num [List.takeWhile, List.dropWhile, digitsOfRun, digitsOfRunAux,
      natOfDigits, isDigitU, hd7, hr1, hr2, h7]
  have hparse : floatOfPyString (cleanedEngagement (pyStrip ("7".data))) =
      some (.finite 7) := by
    have h1 : cleanedEngagement (pyStrip ("7".data)) = ['7'] := by decide
    have h2 : (signSplit (pyStrip ['7'])).2.map lowerChar = ['7'] := by decide
    have h3 : (signSplit (pyStrip ['7'])).1 = false := by decide
    rw [h1, floatOfPyString]
    simp [h2, h3, hcore]
  exact h.2.2.2.2.1 "7" (.finite 7) (by decide) hparse

end ModeUp
